import Mathlib

/-!
Shallow embedding of the cargo-cross toolchain acquisition and
environment-composition subsystem (`src/config.rs`, `src/platform/mod.rs`,
`src/platform/linux.rs`, `src/env.rs`, `src/download.rs`, `src/main.rs`),
together with theorems settling the specification claims about it.
-/

namespace CargoCross

/-! ## Target data model (`src/config.rs`) -/

/-- Operating system type (`enum Os`). -/
inductive Os
  | Linux | Windows | FreeBsd | Darwin | Ios | IosSim | Android
deriving DecidableEq, Repr

/-- Architecture type (`enum Arch`). -/
inductive Arch
  | Aarch64 | Arm64e | Armv5 | Armv6 | Armv7
  | I586 | I686 | Loongarch64
  | Mips | Mipsel | Mips64 | Mips64el
  | Powerpc64 | Powerpc64le | Riscv64 | S390x
  | X86_64 | X86_64h
deriving DecidableEq, Repr

/-- Rust `Arch::as_str` from `src/config.rs`. -/
def Arch.as_str : Arch → String
  | .Aarch64 => "aarch64"
  | .Arm64e => "arm64e"
  | .Armv5 => "armv5"
  | .Armv6 => "armv6"
  | .Armv7 => "armv7"
  | .I586 => "i586"
  | .I686 => "i686"
  | .Loongarch64 => "loongarch64"
  | .Mips => "mips"
  | .Mipsel => "mipsel"
  | .Mips64 => "mips64"
  | .Mips64el => "mips64el"
  | .Powerpc64 => "powerpc64"
  | .Powerpc64le => "powerpc64le"
  | .Riscv64 => "riscv64"
  | .S390x => "s390x"
  | .X86_64 => "x86_64"
  | .X86_64h => "x86_64h"

/-- C library type (`enum Libc`). -/
inductive Libc
  | Musl | Gnu | Msvc
deriving DecidableEq, Repr

/-- Rust `Libc::as_str` from `src/config.rs`. -/
def Libc.as_str : Libc → String
  | .Musl => "musl"
  | .Gnu => "gnu"
  | .Msvc => "msvc"

/-- ABI type (`enum Abi`). -/
inductive Abi
  | Eabi | Eabihf
deriving DecidableEq, Repr

/-- Rust `Abi::as_str` from `src/config.rs`. -/
def Abi.as_str : Abi → String
  | .Eabi => "eabi"
  | .Eabihf => "eabihf"

/-- Modelled from the spec: `Abi::is_gnu_abi_variant` is called from
`src/platform/mod.rs` but its definition is missing from the provided
`src/config.rs`.  Per the source comment there, the gnu abi variants are
`gnusf`, `gnuspe`, `gnuabiv2`, `gnuabiv2hf`; neither `eabi` nor `eabihf`
(the only constructors of the provided `Abi` enum) is one of them. -/
def Abi.is_gnu_abi_variant : Abi → Bool
  | .Eabi => false
  | .Eabihf => false

/-- Constant `DEFAULT_GLIBC_VERSION` from `src/config.rs`. -/
def DEFAULT_GLIBC_VERSION : String := "2.28"

/-- Host platform information (`struct HostPlatform`). -/
structure HostPlatform where
  os : String
  arch : String
  triple : String
deriving DecidableEq, Repr

/-- Rust `HostPlatform::is_windows`. -/
def HostPlatform.is_windows (h : HostPlatform) : Bool := h.os == "windows"

/-- Rust `HostPlatform::is_darwin`. -/
def HostPlatform.is_darwin (h : HostPlatform) : Bool := h.os == "darwin"

/-- Rust `HostPlatform::path_separator`. -/
def HostPlatform.path_separator (h : HostPlatform) : String :=
  if h.is_windows then ";" else ":"

/-- Rust `HostPlatform::can_run_natively` from `src/config.rs`: whether the host
can natively run binaries of the given target architecture. -/
def HostPlatform.can_run_natively (h : HostPlatform) (target_arch : Arch) : Bool :=
  if h.arch == "x86_64" then
    decide (target_arch = .X86_64 ∨ target_arch = .I686 ∨ target_arch = .I586)
  else if h.arch == "aarch64" then
    decide (target_arch = .Aarch64 ∨ target_arch = .Armv5 ∨
      target_arch = .Armv6 ∨ target_arch = .Armv7)
  else if h.arch == "i686" || h.arch == "i586" then
    decide (target_arch = .I686 ∨ target_arch = .I586)
  else
    h.arch == target_arch.as_str

/-! ## Linux toolchain naming (`src/platform/mod.rs`, `src/platform/linux.rs`) -/

/-- Function `get_linux_bin_prefix` from `src/platform/mod.rs`: binary-name prefix for
a Linux target; note it takes no version parameter at all. -/
def get_linux_bin_prefix (arch : Arch) (libc : Libc) (abi : Option Abi) : String :=
  match abi with
  | some abi_val =>
    if abi_val.is_gnu_abi_variant && libc == Libc.Gnu then
      arch.as_str ++ "-linux-gnu" ++ abi_val.as_str
    else
      arch.as_str ++ "-linux-" ++ libc.as_str ++ abi_val.as_str
  | none => arch.as_str ++ "-linux-" ++ libc.as_str

/-- Function `get_linux_folder_name` from `src/platform/mod.rs`: cache folder name for
a Linux cross toolchain; for gnu libc the folder name embeds the glibc
version unless it equals the default version. -/
def get_linux_folder_name (arch : Arch) (libc : Libc) (abi : Option Abi)
    (glibc_version default_glibc_version : String) : String :=
  let special : Option String :=
    match abi with
    | some abi_val =>
      if abi_val.is_gnu_abi_variant && libc == Libc.Gnu then
        let abi_suffix := abi_val.as_str
        let folder_suffix :=
          if glibc_version == default_glibc_version then
            "gnu" ++ abi_suffix
          else
            "gnu" ++ abi_suffix ++ "-" ++ glibc_version
        some (arch.as_str ++ "-linux-" ++ folder_suffix ++ "-cross")
      else none
    | none => none
  match special with
  | some s => s
  | none =>
    let libc_str := libc.as_str
    let abi_str := (abi.map Abi.as_str).getD ""
    let folder_suffix :=
      if libc == Libc.Gnu && glibc_version != default_glibc_version then
        libc_str ++ abi_str ++ "-" ++ glibc_version
      else
        libc_str ++ abi_str
    arch.as_str ++ "-linux-" ++ folder_suffix ++ "-cross"

/-- Compiler binary name from `src/platform/linux.rs` (`gcc_name`): the bin
prefix plus `-gcc`, with `.exe` appended only on a Windows host. -/
def linux_gcc_name (host : HostPlatform) (arch : Arch) (libc : Libc)
    (abi : Option Abi) : String :=
  let exe_ext := if host.is_windows then ".exe" else ""
  get_linux_bin_prefix arch libc abi ++ "-gcc" ++ exe_ext

/-! ## Download retry and resume (`src/download.rs`) -/

/-- Constant `MAX_RETRIES` from `src/download.rs`. -/
def MAX_RETRIES : Nat := 3

/-- Shape of a `reqwest::Error`, as consulted by `is_retryable_error`:
which classification predicates hold, and the HTTP status attached to the
error (only present for errors made via `error_for_status`, which the
download code never calls). -/
structure ReqwestError where
  timeout : Bool
  connect : Bool
  request : Bool
  has_status : Bool
  status : Option Nat
deriving DecidableEq, Repr

/-- Function `is_retryable_error` from `src/download.rs`: timeouts, connect failures,
request errors, and status-carrying errors whose status is 5xx. -/
def is_retryable_error (e : ReqwestError) : Bool :=
  e.timeout || e.connect || e.request ||
    (e.has_status && ((e.status.map (fun s => 500 ≤ s && s ≤ 599)).getD false))

/-- Outcome of one `request.send().await`: `ok status` means a response
arrived (any HTTP status, including 4xx/5xx, is delivered as `Ok` by
reqwest); `err e` means the send itself failed. -/
inductive SendResult
  | ok (status : Nat)
  | err (e : ReqwestError)
deriving DecidableEq, Repr

/-- Error type of the retry loop, mirroring `CrossError` as used in
`send_request_with_retry_range`: `downloadFailed s` stands for
`CrossError::DownloadFailed("HTTP {s} for {url}")`, `reqwestErr e` for a
converted `reqwest::Error`. -/
inductive SendError
  | downloadFailed (status : Nat)
  | reqwestErr (e : ReqwestError)
  | unknown
deriving DecidableEq, Repr

/-- Rust `StatusCode::is_success`: 2xx. -/
def statusIsSuccess (s : Nat) : Bool := 200 ≤ s && s ≤ 299

/-- The `for attempt in 0..=MAX_RETRIES` body of
`send_request_with_retry_range` from `src/download.rs`, over a script of
network outcomes (one per issued request).  A delivered response is returned
if its status is 2xx or 206 and otherwise turned into an immediate
`DownloadFailed` error; a send error is retried only while it is retryable
and attempts remain. -/
def send_loop : Nat → List SendResult → Except SendError Nat
  | _, [] => .error .unknown
  | attempt, r :: rest =>
    match r with
    | .ok status =>
      if statusIsSuccess status || status == 206 then .ok status
      else .error (.downloadFailed status)
    | .err e =>
      if !is_retryable_error e || attempt == MAX_RETRIES then
        .error (.reqwestErr e)
      else
        send_loop (attempt + 1) rest

/-- Function `send_request_with_retry_range` from `src/download.rs`, starting at
attempt 0. -/
def send_request_with_retry_range (script : List SendResult) : Except SendError Nat :=
  send_loop 0 script

/-- A pure connect failure (`err.is_connect()`). -/
def connectErr : ReqwestError :=
  { timeout := false, connect := true, request := false
    has_status := false, status := none }

/-- A response-side error carrying HTTP status 503, the shape
`is_retryable_error` classifies via its `is_status`/`is_server_error`
branch. -/
def statusErr503 : ReqwestError :=
  { timeout := false, connect := false, request := false
    has_status := true, status := some 503 }

/-- Behaviour of the remote HTTP server for the resume model: it holds the
full file `content`; when it honours range requests and a positive start
offset is given it answers `206` with the tail, otherwise it answers `200`
with the full content. -/
structure Server where
  content : List Nat
  supportsRange : Bool
deriving DecidableEq, Repr

/-- One server response to a GET whose `Range` start offset is
`startPos`. -/
def Server.respond (srv : Server) (startPos : Nat) : Nat × List Nat :=
  if srv.supportsRange && decide (0 < startPos) then
    (206, srv.content.drop startPos)
  else
    (200, srv.content)

/-- Function `download_with_resume` from `src/download.rs`, one successful pass (no
mid-stream break): `tmp` is the pre-existing `<dest>.tmp` content, whose
length is the resume offset.  Returns the `Range` header carried by the GET
(`none` when starting from zero) and the final temp-file bytes.  Faithful to
the source: the file is opened in append mode whenever the offset is
positive, and the response body is written as received, with the response
status never consulted. -/
def download_with_resume (srv : Server) (tmp : List Nat) :
    Option String × List Nat :=
  let downloaded := tmp.length
  let rangeHeader : Option String :=
    if 0 < downloaded then some ("bytes=" ++ toString downloaded ++ "-") else none
  let body := (srv.respond downloaded).2
  let fileBytes := if 0 < downloaded then tmp ++ body else body
  (rangeHeader, fileBytes)

/-! ## Archive extraction finalization (`src/download.rs`) -/

/-- A filesystem node: a regular file with its bytes, or a directory with
named entries. -/
inductive FsNode
  | file (data : List Nat)
  | dir (entries : List (String × FsNode))

/-- The single-top-level-directory test performed by `finalize_extraction`:
`entries.len() == 1 && entries[0].file_type().is_dir()`; returns that
directory node when the test holds. -/
def singleTopDir : List (String × FsNode) → Option FsNode
  | [(_, FsNode.dir sub)] => some (FsNode.dir sub)
  | _ => none

/-- Function `finalize_extraction` from `src/download.rs`, as the destination node it
produces from the temp directory's entries: the single top-level directory
is moved directly when present, otherwise the whole temp directory
becomes the destination. -/
def finalize_extraction (entries : List (String × FsNode)) : FsNode :=
  match singleTopDir entries with
  | some d => d
  | none => FsNode.dir entries

/-- On-disk state that `download_and_extract` manipulates: the final
destination path and the scratch `<dest>.tmp` directory (either may be
absent). -/
structure ExtractState where
  dest : Option FsNode
  temp : Option FsNode

/-- Function `download_and_extract` from `src/download.rs`, after format detection:
the scratch temp directory is created fresh, the download-and-unpack phase
runs (its outcome, the temp directory's entries or an error, is the
`extractResult` parameter), the temp directory is deleted and the error
returned on failure, and only on success does `finalize_extraction` remove
any pre-existing destination and move the extracted content into place. -/
def download_and_extract (extractResult : Except String (List (String × FsNode)))
    (st : ExtractState) : Except String Unit × ExtractState :=
  match extractResult with
  | .error e => (.error e, { dest := st.dest, temp := none })
  | .ok entries =>
    (.ok (), { dest := some (finalize_extraction entries), temp := none })

/-! ## Per-target orchestration (`src/main.rs`) -/

/-- Rust `ExitCode::SUCCESS`. -/
def EXIT_SUCCESS : Nat := 0

/-- Rust `ExitCode::FAILURE`. -/
def EXIT_FAILURE : Nat := 1

/-- The per-target loop of `run` in `src/main.rs`: targets are processed in
order; the first whose `execute_target` fails (the error carries the failing
command's exit code, cf. `CrossError::CargoFailed`) makes `run` return
`ExitCode::FAILURE` at once, leaving the remaining targets unprocessed.
Returns the process exit code together with the list of targets that
completed. -/
def run_targets : List String → (String → Except Nat Unit) → Nat × List String
  | [], _ => (EXIT_SUCCESS, [])
  | t :: rest, exec =>
    match exec t with
    | .error _ => (EXIT_FAILURE, [])
    | .ok _ =>
      let r := run_targets rest exec
      (r.1, t :: r.2)

/-! ## Glob matching for compiler-binary lookup (`src/platform/mod.rs`) -/

/-- One element of a compiled glob pattern, as used by
`find_file_by_pattern`: `star` matches any character sequence, `question`
any single character, `lit c` exactly the character `c`.  This covers the
pattern alphabet the toolchain lookup uses (`<prefix>-clang`,
`<prefix>-clang++`, with `*` wildcards inside the prefix). -/
inductive GlobElem
  | star
  | question
  | lit (c : Char)
deriving DecidableEq, Repr

/-- Compile a glob pattern string into its elements (`globset::Glob`
restricted to the `*`/`?`/literal alphabet). -/
def parseGlob (pat : List Char) : List GlobElem :=
  pat.map (fun c => if c = '*' then .star else if c = '?' then .question else .lit c)

/-- Whole-name glob matching, the semantics of
`globset::GlobMatcher::is_match`: the pattern must cover the entire
candidate name, not merely a substring of it. -/
def globMatch : List GlobElem → List Char → Bool
  | [], [] => true
  | [], _ :: _ => false
  | .lit _ :: _, [] => false
  | .lit c :: p, d :: s => c == d && globMatch p s
  | .question :: _, [] => false
  | .question :: p, _ :: s => globMatch p s
  | .star :: p, s =>
    globMatch p s ||
      (match s with
       | [] => false
       | _ :: t => globMatch (.star :: p) t)
termination_by p s => (p.length, s.length)

/-- A run of literal glob elements. -/
def litsOf (cs : List Char) : List GlobElem := cs.map GlobElem.lit

/-- Function `find_file_by_pattern` from `src/platform/mod.rs`: the first directory
entry whose whole filename matches the glob pattern. -/
def find_file_by_pattern (dir : List (List Char)) (pat : List Char) :
    Option (List Char) :=
  dir.find? (fun name => globMatch (parseGlob pat) name)

/-! ## Environment composition (`src/env.rs`) -/

/-- Rust `struct CrossEnv` from `src/env.rs` (paths modelled as strings, the
`extra_env` map as an association list). -/
structure CrossEnv where
  cc : Option String := none
  cxx : Option String := none
  ar : Option String := none
  linker : Option String := none
  runner : Option String := none
  path : List String := []
  rustflags : List String := []
  sdkroot : Option String := none
  library_path : List String := []
  cflags : List String := []
  cxxflags : List String := []
  ldflags : List String := []
  build_std : Option String := none
  extra_env : List (String × String) := []

/-- Rust `HashMap::insert`: bind `k` to `v`, replacing any previous binding. -/
def envInsert (m : List (String × String)) (k v : String) :
    List (String × String) :=
  (k, v) :: m.filter (fun p => p.1 != k)

/-- Rust `HashMap::get`: the value bound to `k`, if any. -/
def lookupEnv (m : List (String × String)) (k : String) : Option String :=
  (m.find? (fun p => p.1 == k)).map (fun p => p.2)

/-- Rust `target.replace('-', "_")` from `CrossEnv::build_env`. -/
def underscored (t : String) : String :=
  String.mk (t.data.map (fun c => if c = '-' then '_' else c))

/-- Rust `target.to_uppercase().replace('-', "_")` from `CrossEnv::build_env`. -/
def upperUnderscored (t : String) : String :=
  String.mk (t.data.map (fun c => let u := c.toUpper; if u = '-' then '_' else u))

/-- Rust `CrossEnv::build_env` from `src/env.rs`: the environment map composed
for one target.  `ambient` models `std::env::var` (the process environment
consulted for `PATH` and the library-path variable).  Insertion order
follows the source; `envInsert` gives `HashMap` semantics. -/
def build_env (e : CrossEnv) (target : String) (host : HostPlatform)
    (ambient : String → Option String) : List (String × String) :=
  let target_lower := underscored target
  let target_upper := upperUnderscored target
  let env : List (String × String) := []
  let env := match e.cc with
    | some cc => envInsert (envInsert env ("CC_" ++ target_lower) cc) "CC" cc
    | none => env
  let env := match e.cxx with
    | some cxx => envInsert (envInsert env ("CXX_" ++ target_lower) cxx) "CXX" cxx
    | none => env
  let env := match e.ar with
    | some ar => envInsert (envInsert env ("AR_" ++ target_lower) ar) "AR" ar
    | none => env
  let env := match e.linker with
    | some linker =>
      envInsert env ("CARGO_TARGET_" ++ target_upper ++ "_LINKER") linker
    | none => env
  let env := match e.runner with
    | some runner =>
      envInsert env ("CARGO_TARGET_" ++ target_upper ++ "_RUNNER") runner
    | none => env
  let env :=
    if e.path.isEmpty then env
    else
      let sep := host.path_separator
      let current_path := (ambient "PATH").getD ""
      let new_path := String.intercalate sep e.path
      envInsert env "PATH" (new_path ++ sep ++ current_path)
  let env := match e.sdkroot with
    | some sdkroot => envInsert env "SDKROOT" sdkroot
    | none => env
  let env :=
    if e.library_path.isEmpty then env
    else
      let sep := host.path_separator
      let lib_path := String.intercalate sep e.library_path
      let lib_var := if host.is_darwin then "DYLD_LIBRARY_PATH" else "LD_LIBRARY_PATH"
      let current := (ambient lib_var).getD ""
      if current == "" then envInsert env lib_var lib_path
      else envInsert env lib_var (lib_path ++ sep ++ current)
  let env :=
    if e.cflags.isEmpty then env
    else
      let flags := String.intercalate " " e.cflags
      envInsert (envInsert env ("CFLAGS_" ++ target_lower) flags) "CFLAGS" flags
  let env :=
    if e.cxxflags.isEmpty then env
    else
      let flags := String.intercalate " " e.cxxflags
      envInsert (envInsert env ("CXXFLAGS_" ++ target_lower) flags) "CXXFLAGS" flags
  let env :=
    if e.ldflags.isEmpty then env
    else
      let flags := String.intercalate " " e.ldflags
      envInsert (envInsert env ("LDFLAGS_" ++ target_lower) flags) "LDFLAGS" flags
  e.extra_env.foldl (fun acc kv => envInsert acc kv.1 kv.2) env

/-! ## Target-pattern expansion (`src/config.rs`) -/

/-- Rust `char::is_whitespace` as used by `str::trim` (modelled on the ASCII
whitespace the target patterns can contain). -/
def isWs (c : Char) : Bool := c.isWhitespace

/-- Leading-whitespace removal. -/
def dropWs (s : List Char) : List Char := s.dropWhile isWs

/-- Trailing-whitespace removal. -/
def trimRightList (s : List Char) : List Char := (s.reverse.dropWhile isWs).reverse

/-- Rust `str::trim`: remove leading and trailing whitespace. -/
def trimList (s : List Char) : List Char := trimRightList (dropWs s)

/-- Lexicographic order on character lists, as `sort_unstable` orders
`&str` values. -/
def strLeB : List Char → List Char → Bool
  | [], _ => true
  | _ :: _, [] => false
  | a :: as, b :: bs => if a = b then strLeB as bs else decide (a < b)

/-- Function `expand_targets` from `src/config.rs` (strings as character lists).
The registry stands for `TARGETS.keys()`; `regexCompile` and `globCompile`
stand for `regex::Regex::new` and `globset::Glob::new` (returning `none` on
an invalid pattern, which the source maps to an empty result).  The pattern
is trimmed first, then classified as `all`, `~`-regex, glob (when it
contains `*`, `?`, `[` or `{`), or an exact registry lookup; the result is
sorted. -/
def expand_targets (registry : List (List Char))
    (regexCompile globCompile : List Char → Option (List Char → Bool))
    (patternInput : List Char) : List (List Char) :=
  let pattern := trimList patternInput
  let targets : List (List Char) :=
    if pattern = "all".data then registry
    else
      match pattern with
      | '~' :: regex_pattern =>
        match regexCompile regex_pattern with
        | none => []
        | some re => registry.filter re
      | _ =>
        if pattern.contains '*' || pattern.contains '?' ||
            pattern.contains '[' || pattern.contains '{' then
          match globCompile pattern with
          | none => []
          | some m => registry.filter m
        else if registry.contains pattern then [pattern] else []
  targets.mergeSort strLeB

/-! ## Theorems -/

/-- Helper: appending to a strictly longer string never equals the shorter
base string. -/
theorem str_append_ne (pre t base : String) (h : base.length < pre.length) :
    pre ++ t ≠ base := by
  intro he
  have h2 := congrArg String.length he
  rw [String.length_append] at h2
  omega

/-- C1: evaluation of the retry loop on the claim's own scenario.  A `503`
response is returned by `request.send()` as `Ok` and the loop turns any
non-2xx/206 status into an immediate fatal `DownloadFailed` — it is not
retried, so the sequence 503, 503, 200 fails at once instead of succeeding.
Connect failures are retried (second conjunct), and `is_retryable_error`
itself would classify a 503-carrying error as retryable (third conjunct),
but no such error value is ever produced on the response path. -/
theorem send_request_503_immediately_fatal :
    send_request_with_retry_range [.ok 503, .ok 503, .ok 200]
        = .error (.downloadFailed 503)
    ∧ send_request_with_retry_range [.err connectErr, .err connectErr, .ok 200]
        = .ok 200
    ∧ is_retryable_error statusErr503 = true :=
  ⟨rfl, rfl, rfl⟩

/-- C2: evaluation of the resume path.  With a 1-byte `.tmp` file and a
2-byte remote file served by a server that ignores `Range` and answers
`200` with the full content, the ranged request `bytes=1-` is issued but
the full body is appended after the existing byte, leaving 3 bytes — not
the 2-byte file the claim promises; a fresh download of the same URL gives
the correct 2 bytes, and a range-honouring server (206) also gives the
correct 2 bytes. -/
theorem download_with_resume_200_appends :
    download_with_resume ⟨[7, 8], false⟩ [7] = (some "bytes=1-", [7, 7, 8])
    ∧ download_with_resume ⟨[7, 8], false⟩ [] = (none, [7, 8])
    ∧ download_with_resume ⟨[7, 8], true⟩ [7] = (some "bytes=1-", [7, 8])
    ∧ ([7, 7, 8] : List Nat).length ≠ ([7, 8] : List Nat).length :=
  ⟨rfl, rfl, rfl, by decide⟩

/-- C3: extraction is all-or-nothing.  When the download-and-unpack phase
fails, `download_and_extract` deletes the scratch temp directory and
returns the error with the destination exactly as it was; when it
succeeds, the destination is replaced by the finalized content. -/
theorem download_and_extract_all_or_nothing :
    ∀ (e : String) (entries : List (String × FsNode)) (st : ExtractState),
      download_and_extract (.error e) st = (.error e, ⟨st.dest, none⟩)
      ∧ download_and_extract (.ok entries) st
          = (.ok (), ⟨some (finalize_extraction entries), none⟩) :=
  fun _ _ _ => ⟨rfl, rfl⟩

/-- C5: destination finalization.  A single top-level directory is
unwrapped one level (its contents become the destination); otherwise the
whole temp directory becomes the destination; and on success the
destination is replaced by the finalized content regardless of what was
there before. -/
theorem finalize_extraction_unwraps :
    ∀ (nm : String) (sub entries : List (String × FsNode)) (st : ExtractState),
      finalize_extraction [(nm, FsNode.dir sub)] = FsNode.dir sub
      ∧ (singleTopDir entries = none → finalize_extraction entries = FsNode.dir entries)
      ∧ (download_and_extract (.ok entries) st).2.dest
          = some (finalize_extraction entries) := by
  intro nm sub entries st
  refine ⟨rfl, ?_, rfl⟩
  intro h
  simp [finalize_extraction, h]

/-- Witness for C5 at a concrete two-entry temp directory. -/
theorem finalize_extraction_unwraps_witness :
    finalize_extraction [("a", FsNode.file [1]), ("b", FsNode.file [2])]
      = FsNode.dir [("a", FsNode.file [1]), ("b", FsNode.file [2])] :=
  (finalize_extraction_unwraps "x" []
      [("a", FsNode.file [1]), ("b", FsNode.file [2])] ⟨none, none⟩).2.1 rfl

/-- C4 counterexample: a single target whose cargo invocation exits with
code 101 makes `run` return `ExitCode::FAILURE` (1), not the failing exit
code 101 the claim promises. -/
theorem run_targets_exit_code_counterexample :
    run_targets ["a"] (fun _ => Except.error 101) = (1, [])
    ∧ (1 : Nat) ≠ 101 :=
  ⟨rfl, by decide⟩

/-- C4 (amended): the first failing target stops processing — the remaining
targets are never executed and do not affect the result — the process exit
code is the generic `ExitCode::FAILURE` (1) regardless of the failing
command's own exit code, and the targets completed before the failure are
kept. -/
theorem run_targets_fail_fast :
    ∀ (pre rest : List String) (t : String) (exec : String → Except Nat Unit)
      (code : Nat),
      (∀ p ∈ pre, exec p = .ok ()) → exec t = .error code →
      run_targets (pre ++ t :: rest) exec = (EXIT_FAILURE, pre) := by
  intro pre rest t exec code hpre ht
  induction pre with
  | nil => simp [run_targets, ht]
  | cons p ps ih =>
    have hp := hpre p (by simp)
    have ih2 := ih (fun q hq => hpre q (by simp [hq]))
    simp [run_targets, hp, ih2]

/-- Witness for C4's amended claim: one completed target, then a failure
with exit code 101, then a target that is never reached. -/
theorem run_targets_fail_fast_witness :
    run_targets ["ok1", "bad", "never"]
        (fun s => if s = "ok1" then .ok () else .error 101)
      = (EXIT_FAILURE, ["ok1"]) := by
  have h := run_targets_fail_fast ["ok1"] ["never"] "bad"
      (fun s => if s = "ok1" then .ok () else .error 101) 101
      (by intro p hp; simp at hp; subst hp; rfl) (by rfl)
  simpa using h

/-- C7: the toolchain cache folder name embeds the glibc version exactly
when it differs from the built-in default, while the compiler binary name
(which takes no version parameter at all) stays the same. -/
theorem linux_folder_and_binary_names :
    get_linux_folder_name Arch.X86_64 Libc.Gnu none "2.28" DEFAULT_GLIBC_VERSION
        = "x86_64-linux-gnu-cross"
    ∧ get_linux_folder_name Arch.X86_64 Libc.Gnu none "2.31" DEFAULT_GLIBC_VERSION
        = "x86_64-linux-gnu-2.31-cross"
    ∧ linux_gcc_name ⟨"linux", "x86_64", "x86_64-unknown-linux-gnu"⟩
        Arch.X86_64 Libc.Gnu none = "x86_64-linux-gnu-gcc"
    ∧ get_linux_bin_prefix Arch.X86_64 Libc.Gnu none = "x86_64-linux-gnu" :=
  ⟨rfl, rfl, rfl, rfl⟩

/-- C10 counterexample: an `i686` host is reported able to run an `I586`
target natively, although `"i686"` is not equal to `Arch::I586.as_str()` —
so "exact equality for every host other than x86_64/aarch64" is false. -/
theorem can_run_natively_counterexample :
    HostPlatform.can_run_natively ⟨"linux", "i686", "i686-unknown-linux-gnu"⟩
        Arch.I586 = true
    ∧ ("i686" : String) ≠ Arch.I586.as_str :=
  ⟨rfl, by decide⟩

/-- C10 (amended): native-run detection is superset-closed — an `x86_64`
host runs `X86_64`/`I686`/`I586`, an `aarch64` host runs
`Aarch64`/`Armv5`/`Armv6`/`Armv7`, an `i686` or `i586` host runs both
`I686` and `I586`, and for every remaining host architecture the check is
exact equality of architecture names. -/
theorem can_run_natively_cases :
    ∀ (h : HostPlatform) (ta : Arch),
      (h.arch = "x86_64" →
        (h.can_run_natively ta = true ↔
          (ta = .X86_64 ∨ ta = .I686 ∨ ta = .I586)))
      ∧ (h.arch = "aarch64" →
        (h.can_run_natively ta = true ↔
          (ta = .Aarch64 ∨ ta = .Armv5 ∨ ta = .Armv6 ∨ ta = .Armv7)))
      ∧ ((h.arch = "i686" ∨ h.arch = "i586") →
        (h.can_run_natively ta = true ↔ (ta = .I686 ∨ ta = .I586)))
      ∧ (h.arch ≠ "x86_64" → h.arch ≠ "aarch64" → h.arch ≠ "i686" →
          h.arch ≠ "i586" →
        (h.can_run_natively ta = true ↔ h.arch = ta.as_str)) := by
  intro h ta
  refine ⟨?_, ?_, ?_, ?_⟩
  · intro hx
    simp [HostPlatform.can_run_natively, hx]
  · intro hx
    simp [HostPlatform.can_run_natively, hx]
  · intro hx
    rcases hx with hx | hx <;> simp [HostPlatform.can_run_natively, hx]
  · intro h1 h2 h3 h4
    have e1 : (h.arch == "x86_64") = false := beq_eq_false_iff_ne.mpr h1
    have e2 : (h.arch == "aarch64") = false := beq_eq_false_iff_ne.mpr h2
    have e3 : (h.arch == "i686") = false := beq_eq_false_iff_ne.mpr h3
    have e4 : (h.arch == "i586") = false := beq_eq_false_iff_ne.mpr h4
    simp [HostPlatform.can_run_natively, e1, e2, e3, e4]

/-- Witness for C10's amended claim: an x86_64 host runs an I686 target; an
s390x host is checked by exact name equality and runs an S390x target. -/
theorem can_run_natively_cases_witness :
    HostPlatform.can_run_natively ⟨"linux", "x86_64", "x"⟩ Arch.I686 = true
    ∧ HostPlatform.can_run_natively ⟨"linux", "s390x", "s"⟩ Arch.S390x = true := by
  constructor
  · exact (can_run_natively_cases ⟨"linux", "x86_64", "x"⟩ Arch.I686).1 rfl
      |>.mpr (Or.inr (Or.inl rfl))
  · exact ((can_run_natively_cases ⟨"linux", "s390x", "s"⟩ Arch.S390x).2.2.2
      (by decide) (by decide) (by decide) (by decide)).mpr rfl

/-- C8: for each compiler/flags field that is set, `build_env` emits exactly
two keys — the generic key and the target-suffixed key (dashes replaced by
underscores) — both mapped to the same value; in particular
`cc = "aarch64-linux-gnu-gcc"` for target `aarch64-unknown-linux-gnu`
yields both `CC` and `CC_aarch64_unknown_linux_gnu`. -/
theorem build_env_two_keys :
    ∀ (v target : String) (host : HostPlatform) (ambient : String → Option String),
      build_env { cc := some v } target host ambient
        = [("CC", v), ("CC_" ++ underscored target, v)]
      ∧ build_env { cxx := some v } target host ambient
        = [("CXX", v), ("CXX_" ++ underscored target, v)]
      ∧ build_env { ar := some v } target host ambient
        = [("AR", v), ("AR_" ++ underscored target, v)]
      ∧ build_env { cflags := [v] } target host ambient
        = [("CFLAGS", v), ("CFLAGS_" ++ underscored target, v)]
      ∧ build_env { cxxflags := [v] } target host ambient
        = [("CXXFLAGS", v), ("CXXFLAGS_" ++ underscored target, v)]
      ∧ build_env { ldflags := [v] } target host ambient
        = [("LDFLAGS", v), ("LDFLAGS_" ++ underscored target, v)]
      ∧ lookupEnv (build_env { cc := some "aarch64-linux-gnu-gcc" }
            "aarch64-unknown-linux-gnu" ⟨"linux", "x86_64", "x"⟩ (fun _ => none))
          "CC" = some "aarch64-linux-gnu-gcc"
      ∧ lookupEnv (build_env { cc := some "aarch64-linux-gnu-gcc" }
            "aarch64-unknown-linux-gnu" ⟨"linux", "x86_64", "x"⟩ (fun _ => none))
          "CC_aarch64_unknown_linux_gnu" = some "aarch64-linux-gnu-gcc" := by
  intro v target host ambient
  have hcc : (("CC_" ++ underscored target) != "CC") = true :=
    bne_iff_ne.mpr (str_append_ne _ _ _ (by decide))
  have hcxx : (("CXX_" ++ underscored target) != "CXX") = true :=
    bne_iff_ne.mpr (str_append_ne _ _ _ (by decide))
  have har : (("AR_" ++ underscored target) != "AR") = true :=
    bne_iff_ne.mpr (str_append_ne _ _ _ (by decide))
  have hcf : (("CFLAGS_" ++ underscored target) != "CFLAGS") = true :=
    bne_iff_ne.mpr (str_append_ne _ _ _ (by decide))
  have hcxf : (("CXXFLAGS_" ++ underscored target) != "CXXFLAGS") = true :=
    bne_iff_ne.mpr (str_append_ne _ _ _ (by decide))
  have hlf : (("LDFLAGS_" ++ underscored target) != "LDFLAGS") = true :=
    bne_iff_ne.mpr (str_append_ne _ _ _ (by decide))
  have hone : ∀ w : String, String.intercalate " " [w] = w := fun _ => rfl
  refine ⟨?_, ?_, ?_, ?_, ?_, ?_, ?_, ?_⟩
  · simp [build_env, envInsert, hcc]
  · simp [build_env, envInsert, hcxx]
  · simp [build_env, envInsert, har]
  · simp [build_env, envInsert, hcf, hone]
  · simp [build_env, envInsert, hcxf, hone]
  · simp [build_env, envInsert, hlf, hone]
  · rfl
  · rfl

/-- Equation: the empty pattern matches exactly the empty name. -/
theorem glob_nil_nil : globMatch [] [] = true := by
  rw [globMatch]

/-- Equation: the empty pattern rejects any non-empty name. -/
theorem glob_nil_cons (d : Char) (s : List Char) :
    globMatch [] (d :: s) = false := by
  rw [globMatch]

/-- Equation: a literal rejects the empty name. -/
theorem glob_lit_nil (c : Char) (p : List GlobElem) :
    globMatch (.lit c :: p) [] = false := by
  rw [globMatch]

/-- Equation: a literal consumes exactly one equal character. -/
theorem glob_lit_cons (c : Char) (p : List GlobElem) (d : Char) (s : List Char) :
    globMatch (.lit c :: p) (d :: s) = ((c == d) && globMatch p s) := by
  rw [globMatch]

/-- Equation: a question mark rejects the empty name. -/
theorem glob_q_nil (p : List GlobElem) : globMatch (.question :: p) [] = false := by
  rw [globMatch]

/-- Equation: a question mark consumes exactly one arbitrary character. -/
theorem glob_q_cons (p : List GlobElem) (d : Char) (s : List Char) :
    globMatch (.question :: p) (d :: s) = globMatch p s := by
  rw [globMatch]

/-- Equation: a star on the empty name reduces to the rest of the pattern. -/
theorem glob_star_nil (p : List GlobElem) :
    globMatch (.star :: p) [] = globMatch p [] := by
  rw [globMatch]
  simp

/-- Equation: a star either matches nothing here or consumes one
character. -/
theorem glob_star_cons (p : List GlobElem) (d : Char) (s : List Char) :
    globMatch (.star :: p) (d :: s)
      = (globMatch p (d :: s) || globMatch (.star :: p) s) := by
  rw [globMatch]

/-- Helper: a leading star may match the empty sequence. -/
theorem globMatch_star_of (p : List GlobElem) (s : List Char)
    (h : globMatch p s = true) : globMatch (.star :: p) s = true := by
  cases s with
  | nil => rw [glob_star_nil]; exact h
  | cons d t => rw [glob_star_cons, h]; rfl

/-- Helper: every pattern string matches itself under `parseGlob`. -/
theorem globMatch_self : ∀ cs : List Char, globMatch (parseGlob cs) cs = true := by
  intro cs
  induction cs with
  | nil => exact glob_nil_nil
  | cons c t ih =>
    show globMatch ((if c = '*' then GlobElem.star
        else if c = '?' then GlobElem.question else GlobElem.lit c) :: parseGlob t)
        (c :: t) = true
    by_cases hs : c = '*'
    · subst hs
      rw [if_pos rfl, glob_star_cons, globMatch_star_of _ _ ih]
      simp
    · by_cases hq : c = '?'
      · subst hq
        rw [if_neg hs, if_pos rfl, glob_q_cons]
        exact ih
      · rw [if_neg hs, if_neg hq, glob_lit_cons, ih]
        simp

/-- Helper: a pattern ending in a literal character only matches names
ending in that character, and the rest of the name matches the rest of the
pattern. -/
theorem globMatch_peel_lit :
    ∀ (q : List GlobElem) (c : Char) (s : List Char),
      globMatch (q ++ [.lit c]) s = true →
      ∃ t, s = t ++ [c] ∧ globMatch q t = true := by
  intro q
  induction q with
  | nil =>
    intro c s h
    cases s with
    | nil =>
      rw [List.nil_append, glob_lit_nil] at h
      exact absurd h (by simp)
    | cons d s2 =>
      cases s2 with
      | nil =>
        rw [List.nil_append, glob_lit_cons, glob_nil_nil] at h
        simp at h
        exact ⟨[], by simp [h], glob_nil_nil⟩
      | cons e s3 =>
        rw [List.nil_append, glob_lit_cons, glob_nil_cons] at h
        simp at h
  | cons g q ih =>
    cases g with
    | lit e =>
      intro c s h
      cases s with
      | nil =>
        rw [List.cons_append, glob_lit_nil] at h
        exact absurd h (by simp)
      | cons d s =>
        rw [List.cons_append, glob_lit_cons] at h
        simp only [Bool.and_eq_true, beq_iff_eq] at h
        obtain ⟨he, h2⟩ := h
        obtain ⟨t, ht, hm⟩ := ih c s h2
        refine ⟨d :: t, by simp [ht], ?_⟩
        rw [glob_lit_cons, hm]
        simp [he]
    | question =>
      intro c s h
      cases s with
      | nil =>
        rw [List.cons_append, glob_q_nil] at h
        exact absurd h (by simp)
      | cons d s =>
        rw [List.cons_append, glob_q_cons] at h
        obtain ⟨t, ht, hm⟩ := ih c s h
        refine ⟨d :: t, by simp [ht], ?_⟩
        rw [glob_q_cons]
        exact hm
    | star =>
      intro c s
      induction s with
      | nil =>
        intro h
        rw [List.cons_append, glob_star_nil] at h
        obtain ⟨t, ht, -⟩ := ih c [] h
        exact absurd (congrArg List.length ht) (by simp)
      | cons d s ihs =>
        intro h
        rw [List.cons_append, glob_star_cons, ← List.cons_append] at h
        rcases Bool.or_eq_true_iff.mp h with h1 | h2
        · obtain ⟨t, ht, hm⟩ := ih c (d :: s) h1
          exact ⟨t, ht, globMatch_star_of _ _ hm⟩
        · obtain ⟨t, ht, hm⟩ := ihs h2
          refine ⟨d :: t, by simp [ht], ?_⟩
          rw [glob_star_cons, hm]
          simp


/-- Helper: a pattern ending in a run of literal characters only matches
names ending in exactly that run. -/
theorem globMatch_peel_lits :
    ∀ (cs : List Char) (q : List GlobElem) (s : List Char),
      globMatch (q ++ litsOf cs) s = true →
      ∃ t, s = t ++ cs ∧ globMatch q t = true := by
  intro cs
  induction cs with
  | nil =>
    intro q s h
    exact ⟨s, by simp, by simpa [litsOf] using h⟩
  | cons c cs ih =>
    intro q s h
    have h2 : globMatch ((q ++ [.lit c]) ++ litsOf cs) s = true := by
      simpa [litsOf, List.append_assoc] using h
    obtain ⟨t, ht, hm⟩ := ih (q ++ [.lit c]) s h2
    obtain ⟨t2, ht2, hm2⟩ := globMatch_peel_lit q c t hm
    exact ⟨t2, by simp [ht, ht2], hm2⟩

/-- Helper: `parseGlob` distributes over append. -/
theorem parseGlob_append (a b : List Char) :
    parseGlob (a ++ b) = parseGlob a ++ parseGlob b := by
  simp [parseGlob]

/-- Helper: a name matched by a pattern ending in at least three literal
characters ends in the same three characters. -/
theorem glob_suffix_take (q : List GlobElem) (cs s : List Char)
    (h : globMatch (q ++ litsOf cs) s = true) (hlen : 3 ≤ cs.length) :
    s.reverse.take 3 = cs.reverse.take 3 := by
  obtain ⟨t, ht, -⟩ := globMatch_peel_lits cs q s h
  rw [ht, List.reverse_append, List.take_append_of_le_length (by simpa using hlen)]

/-- C6: compiler-binary lookup by glob pattern matches the entire filename,
never a substring: for every prefix `p` (over the `*`/`?`/literal glob
alphabet), the pattern `p ++ "-clang"` matches the filename `p ++ "-clang"`
but neither `p ++ "-clang++"` nor `p ++ "-clang++-libc++"`; the analogous
whole-name property holds for the `p ++ "-clang++"` pattern; and
`find_file_by_pattern` therefore picks out exactly the `-clang` binary even
when the `-clang++` variants are listed first. -/
theorem find_file_by_pattern_whole_name :
    ∀ p : List Char,
      globMatch (parseGlob (p ++ "-clang".data)) (p ++ "-clang".data) = true
      ∧ globMatch (parseGlob (p ++ "-clang".data)) (p ++ "-clang++".data) = false
      ∧ globMatch (parseGlob (p ++ "-clang".data)) (p ++ "-clang++-libc++".data) = false
      ∧ globMatch (parseGlob (p ++ "-clang++".data)) (p ++ "-clang++".data) = true
      ∧ globMatch (parseGlob (p ++ "-clang++".data)) (p ++ "-clang++-libc++".data) = false
      ∧ find_file_by_pattern
          [p ++ "-clang++-libc++".data, p ++ "-clang++".data, p ++ "-clang".data]
          (p ++ "-clang".data) = some (p ++ "-clang".data) := by
  intro p
  have hp1 : parseGlob (p ++ "-clang".data) = parseGlob p ++ litsOf ("-clang".data) := by
    rw [parseGlob_append]; rfl
  have hp2 : parseGlob (p ++ "-clang++".data)
      = parseGlob p ++ litsOf ("-clang++".data) := by
    rw [parseGlob_append]; rfl
  have neg1 : globMatch (parseGlob (p ++ "-clang".data)) (p ++ "-clang++".data) = false := by
    apply Bool.eq_false_iff.mpr
    intro h
    rw [hp1] at h
    have h3 := glob_suffix_take _ _ _ h (by decide)
    rw [List.reverse_append, List.take_append_of_le_length (by decide)] at h3
    exact absurd h3 (by decide)
  have neg2 : globMatch (parseGlob (p ++ "-clang".data))
      (p ++ "-clang++-libc++".data) = false := by
    apply Bool.eq_false_iff.mpr
    intro h
    rw [hp1] at h
    have h3 := glob_suffix_take _ _ _ h (by decide)
    rw [List.reverse_append, List.take_append_of_le_length (by decide)] at h3
    exact absurd h3 (by decide)
  have neg3 : globMatch (parseGlob (p ++ "-clang++".data))
      (p ++ "-clang++-libc++".data) = false := by
    apply Bool.eq_false_iff.mpr
    intro h
    rw [hp2] at h
    have h3 := glob_suffix_take _ _ _ h (by decide)
    rw [List.reverse_append, List.take_append_of_le_length (by decide)] at h3
    exact absurd h3 (by decide)
  refine ⟨globMatch_self _, neg1, neg2, globMatch_self _, neg3, ?_⟩
  simp [find_file_by_pattern, List.find?, neg1, neg2, globMatch_self]

/-- Helper: dropping whitespace skips an all-whitespace prefix. -/
theorem dropWhile_ws_of_all (a x : List Char) (ha : ∀ c ∈ a, isWs c = true) :
    (a ++ x).dropWhile isWs = x.dropWhile isWs := by
  induction a with
  | nil => rfl
  | cons c t ih =>
    have hc : isWs c = true := ha c (by simp)
    simp only [List.cons_append, List.dropWhile_cons, hc, if_true]
    exact ih (fun d hd => ha d (by simp [hd]))

/-- Helper: an all-whitespace list drops to nothing. -/
theorem dropWhile_ws_nil_of_all (b : List Char) (hb : ∀ c ∈ b, isWs c = true) :
    b.dropWhile isWs = [] :=
  List.dropWhile_eq_nil_iff.mpr hb

/-- Helper: dropping whitespace twice is the same as dropping it once. -/
theorem dropWhile_ws_idem (x : List Char) :
    (x.dropWhile isWs).dropWhile isWs = x.dropWhile isWs := by
  induction x with
  | nil => rfl
  | cons c t ih =>
    by_cases hc : isWs c = true
    · simp only [List.dropWhile_cons, hc, if_true]
      exact ih
    · have hc2 : isWs c = false := by simpa using hc
      simp [List.dropWhile_cons, hc2]

/-- Helper: trailing-whitespace removal ignores an all-whitespace
suffix. -/
theorem trimRight_append_ws (x b : List Char) (hb : ∀ c ∈ b, isWs c = true) :
    trimRightList (x ++ b) = trimRightList x := by
  unfold trimRightList
  rw [List.reverse_append,
    dropWhile_ws_of_all b.reverse x.reverse (fun c hc => hb c (by simpa using hc))]

/-- Helper: trailing-whitespace removal is idempotent. -/
theorem trimRight_idem (x : List Char) :
    trimRightList (trimRightList x) = trimRightList x := by
  unfold trimRightList
  rw [List.reverse_reverse, dropWhile_ws_idem]

/-- Helper: the head surviving a whitespace drop is not whitespace. -/
theorem dropWhile_ws_head_false :
    ∀ (x : List Char) (c : Char) (t : List Char),
      x.dropWhile isWs = c :: t → isWs c = false := by
  intro x
  induction x with
  | nil => intro c t h; exact absurd h (by simp)
  | cons a as ih =>
    intro c t h
    by_cases ha : isWs a = true
    · rw [List.dropWhile_cons, if_pos ha] at h
      exact ih c t h
    · have ha2 : isWs a = false := by simpa using ha
      rw [List.dropWhile_cons, ha2] at h
      simp at h
      obtain ⟨h1, -⟩ := h
      exact h1 ▸ ha2

/-- Helper: `str::trim` ignores surrounding whitespace. -/
theorem trimList_surround (a p b : List Char)
    (ha : ∀ c ∈ a, isWs c = true) (hb : ∀ c ∈ b, isWs c = true) :
    trimList (a ++ p ++ b) = trimList p := by
  unfold trimList dropWs
  rw [List.append_assoc, dropWhile_ws_of_all a _ ha, List.dropWhile_append]
  by_cases hp : (p.dropWhile isWs).isEmpty
  · rw [if_pos hp, dropWhile_ws_nil_of_all b hb]
    have h0 : p.dropWhile isWs = [] := by simpa using hp
    rw [h0]
  · rw [if_neg hp]
    exact trimRight_append_ws _ b hb

/-- Helper: `str::trim` is idempotent. -/
theorem trimList_idem (p : List Char) : trimList (trimList p) = trimList p := by
  unfold trimList dropWs
  cases hy : p.dropWhile isWs with
  | nil => rfl
  | cons c t =>
    have hc : isWs c = false := dropWhile_ws_head_false p c t hy
    have hA : (trimRightList (c :: t)).dropWhile isWs = trimRightList (c :: t) := by
      unfold trimRightList
      rw [show (c :: t).reverse = t.reverse ++ [c] by simp, List.dropWhile_append]
      by_cases he : (t.reverse.dropWhile isWs).isEmpty
      · rw [if_pos he]
        simp [List.dropWhile_cons, hc]
      · rw [if_neg he]
        rw [List.reverse_append]
        simp [List.dropWhile_cons, hc]
    rw [hA, trimRight_idem]

/-- Helper: `strLeB` is transitive. -/
theorem strLeB_trans :
    ∀ (a b c : List Char), strLeB a b = true → strLeB b c = true →
      strLeB a c = true := by
  intro a
  induction a with
  | nil => intro b c _ _; rfl
  | cons x xs ih =>
    intro b c hab hbc
    cases b with
    | nil => simp [strLeB] at hab
    | cons y ys =>
      cases c with
      | nil => simp [strLeB] at hbc
      | cons z zs =>
        simp only [strLeB] at hab hbc ⊢
        by_cases hxy : x = y
        · subst hxy
          rw [if_pos rfl] at hab
          by_cases hyz : x = z
          · subst hyz
            rw [if_pos rfl] at hbc ⊢
            exact ih _ _ hab hbc
          · rw [if_neg hyz] at hbc ⊢
            exact hbc
        · rw [if_neg hxy] at hab
          have hx : x < y := of_decide_eq_true hab
          by_cases hyz : y = z
          · subst hyz
            rw [if_neg hxy]
            exact hab
          · have hy : y < z := of_decide_eq_true (by rwa [if_neg hyz] at hbc)
            have hxz : x < z := lt_trans hx hy
            rw [if_neg (ne_of_lt hxz)]
            exact decide_eq_true hxz

/-- Helper: `strLeB` is total. -/
theorem strLeB_total : ∀ a b : List Char, (strLeB a b || strLeB b a) = true := by
  intro a
  induction a with
  | nil => intro b; simp [strLeB]
  | cons x xs ih =>
    intro b
    cases b with
    | nil => simp [strLeB]
    | cons y ys =>
      simp only [strLeB]
      by_cases hxy : x = y
      · subst hxy
        rw [if_pos rfl, if_pos rfl]
        exact ih ys
      · rw [if_neg hxy, if_neg (Ne.symm hxy)]
        rcases lt_or_gt_of_ne hxy with h | h
        · simp [decide_eq_true h]
        · simp [decide_eq_true h]

/-- C9: target-pattern expansion trims surrounding whitespace before
classifying the pattern — expanding a whitespace-surrounded pattern gives
exactly the list obtained by expanding the trimmed pattern — and the result
is always lexicographically sorted. -/
theorem expand_targets_trim_sorted :
    ∀ (registry : List (List Char))
      (rc gc : List Char → Option (List Char → Bool)) (a p b : List Char),
      (∀ c ∈ a, isWs c = true) → (∀ c ∈ b, isWs c = true) →
      expand_targets registry rc gc (a ++ p ++ b)
          = expand_targets registry rc gc (trimList p)
      ∧ List.Sorted (fun x y => strLeB x y = true)
          (expand_targets registry rc gc p) := by
  intro registry rc gc a p b ha hb
  constructor
  · have h1 : trimList (a ++ p ++ b) = trimList p := trimList_surround a p b ha hb
    have h2 : trimList (trimList p) = trimList p := trimList_idem p
    simp only [expand_targets, h1, h2]
  · exact List.sorted_mergeSort strLeB_trans strLeB_total _

/-- Witness for C9: expanding a whitespace-surrounded `all` over a
two-entry registry equals expanding the trimmed pattern, and the expansion
of `all` is sorted. -/
theorem expand_targets_trim_sorted_witness :
    expand_targets ["b".data, "a".data] (fun _ => none) (fun _ => none)
        (" all ".data)
      = expand_targets ["b".data, "a".data] (fun _ => none) (fun _ => none)
        (trimList ("all".data))
    ∧ List.Sorted (fun x y => strLeB x y = true)
        (expand_targets ["b".data, "a".data] (fun _ => none) (fun _ => none)
          ("all".data)) := by
  have h := expand_targets_trim_sorted ["b".data, "a".data]
      (fun _ => none) (fun _ => none) (" ".data) ("all".data) (" ".data)
      (by decide) (by decide)
  exact ⟨h.1, h.2⟩

end CargoCross
